import Mathlib

/-!
Shallow embedding of `src/simulate.py` (an N-body gravity simulator) and
verification of its specification.

Modelling conventions:
* numpy arrays of 3-vectors become `List Vec3` with `Vec3 := ℚ × ℚ × ℚ`;
  the mass array becomes `List ℚ`.  Rational arithmetic is the exact-arithmetic
  reading of the floating-point program.
* Python's `x ** 0.5` (the real square root) is embedded as `Rat.sqrt`, which
  is exact whenever the radicand is the square of a rational — in particular on
  every concrete configuration evaluated below.  None of the structural
  theorems (force symmetry, partition equivalence) depend on its values.
* In ℚ division by zero yields 0, whereas IEEE arithmetic yields NaN/Inf; the
  program has no guard either way, see the degenerate-configuration theorem.
* The in-place numpy updates `forces[i] += force` / `forces[j] -= force` and
  the body of `main`'s step loop are embedded by explicit state threading
  (`ForceState`, `SimState`), so that frame claims (which arrays a loop leaves
  untouched) are expressible.
-/

/-- A 3-vector of rationals, standing for one row of a numpy `(·, 3)` array. -/
abbrev Vec3 : Type := ℚ × ℚ × ℚ

/-- Elementwise division of a vector by a scalar (numpy `r / distance`). -/
def vdiv (v : Vec3) (c : ℚ) : Vec3 := (v.1 / c, v.2.1 / c, v.2.2 / c)

/-- Elementwise multiplication of a vector by a scalar (numpy `v * c`). -/
def vsmul (v : Vec3) (c : ℚ) : Vec3 := (v.1 * c, v.2.1 * c, v.2.2 * c)

/-- The gravitational constant: the local `G = 1.0` of `force_between_planets`. -/
def G : ℚ := 1

/-- Embedding of `force_between_planets(position1, mass1, position2, mass2)`:
`r = position2 - position1`, `distance = (r[0]**2 + r[1]**2 + r[2]**2) ** 0.5`,
`force_magnitude = G * mass1 * mass2 / distance**2`,
returns `(r / distance) * force_magnitude`. -/
def force_between_planets (position1 : Vec3) (mass1 : ℚ)
    (position2 : Vec3) (mass2 : ℚ) : Vec3 :=
  let r := position2 - position1
  let distance := Rat.sqrt (r.1 * r.1 + r.2.1 * r.2.1 + r.2.2 * r.2.2)
  let force_magnitude := G * mass1 * mass2 / (distance * distance)
  vsmul (vdiv r distance) force_magnitude

/-- In-place update `forces[i] += v` of one row of the force array; out-of-range
indices leave the array unchanged (never reached by the program's loops). -/
def addAt : List Vec3 → Nat → Vec3 → List Vec3
  | [], _, _ => []
  | x :: xs, 0, v => (x + v) :: xs
  | x :: xs, n + 1, v => x :: addAt xs n v

/-- The iteration sequence of the nested loops
`for i in range(start, stop): for j in range(i + 1, num_planets):`
as the list of visited pairs `(i, j)`, in program order. -/
def pairList (start stop n : Nat) : List (Nat × Nat) :=
  (List.range' start (stop - start)).flatMap fun i =>
    (List.range' (i + 1) (n - (i + 1))).map fun j => (i, j)

/-- The mutable state visible to `calculate_forces_range`: the accumulator
array it owns plus the input arrays it reads. -/
structure ForceState where
  forces : List Vec3
  positions : List Vec3
  masses : List ℚ

/-- One iteration of the inner loop body:
`force = force_between_planets(positions[i], masses[i], positions[j], masses[j])`,
`forces[i] += force`, `forces[j] -= force`. -/
def applyPair (positions : List Vec3) (masses : List ℚ)
    (forces : List Vec3) (ij : Nat × Nat) : List Vec3 :=
  let force := force_between_planets (positions.getD ij.1 0) (masses.getD ij.1 0)
    (positions.getD ij.2 0) (masses.getD ij.2 0)
  addAt (addAt forces ij.1 force) ij.2 (-force)

/-- The nested loops of `calculate_forces_range`, run over an explicit state:
each iteration assigns only to the `forces` array, exactly as the source's loop
body does. -/
def runPairs : ForceState → List (Nat × Nat) → ForceState
  | st, [] => st
  | st, ij :: rest =>
      runPairs { st with forces := applyPair st.positions st.masses st.forces ij } rest

/-- Embedding of `calculate_forces_range((start, stop, positions, masses))`:
`forces = np.zeros((num_planets, 3))`, the two nested loops, `return forces`.
(The Python parameter spelt `end` is called `stop` here; `end` is reserved.) -/
def calculate_forces_range (start stop : Nat)
    (positions : List Vec3) (masses : List ℚ) : List Vec3 :=
  (runPairs ⟨List.replicate positions.length 0, positions, masses⟩
    (pairList start stop positions.length)).forces

/-- Embedding of `calculate_forces(positions, masses)`: the full range
`(0, num_planets)` handed to `calculate_forces_range`. -/
def calculate_forces (positions : List Vec3) (masses : List ℚ) : List Vec3 :=
  calculate_forces_range 0 positions.length positions masses

/-- The `(start, stop)` components of the per-worker argument tuples built by
`calculate_forces_parallel`: `chunk_size = num_planets // num_cores`, worker `i`
gets `(i * chunk_size, (i + 1) * chunk_size if i != num_cores - 1 else
num_planets)`. -/
def parallelArgs (num_planets num_cores : Nat) : List (Nat × Nat) :=
  let chunk_size := num_planets / num_cores
  (List.range num_cores).map fun i =>
    (i * chunk_size, if i ≠ num_cores - 1 then (i + 1) * chunk_size else num_planets)

/-- Elementwise sum of the worker result arrays, `np.sum(results, axis=0)`
(each summand has length `n`; folding from the zero array of length `n`). -/
def sumArrays (n : Nat) (ls : List (List Vec3)) : List Vec3 :=
  ls.foldl (List.zipWith (· + ·)) (List.replicate n 0)

/-- Embedding of `calculate_forces_parallel(positions, masses, num_cores)`:
`pool.map(calculate_forces_range, args)` becomes a `List.map` over the argument
ranges (each worker computes independently on its own copy of the inputs), and
the combination step is `sumArrays`. -/
def calculate_forces_parallel (positions : List Vec3) (masses : List ℚ)
    (num_cores : Nat) : List Vec3 :=
  sumArrays positions.length
    ((parallelArgs positions.length num_cores).map fun r =>
      calculate_forces_range r.1 r.2 positions masses)

/-- The fixed time step `dt = 0.2` of `main`. -/
def dt : ℚ := 1 / 5

/-- The simulation state of `main`'s step loop: the three arrays read from the
input file. -/
structure SimState where
  positions : List Vec3
  velocities : List Vec3
  masses : List ℚ

/-- The force-computation dispatch of one loop iteration:
`calculate_forces_parallel(...) if num_cores > 1 else calculate_forces(...)`. -/
def stepForces (num_cores : Nat) (st : SimState) : List Vec3 :=
  if num_cores > 1 then calculate_forces_parallel st.positions st.masses num_cores
  else calculate_forces st.positions st.masses

/-- One iteration of `main`'s step loop:
`accelerations = forces / masses[:, np.newaxis]`,
`velocities += accelerations * dt`, `positions += velocities * dt`.
Only `velocities` and `positions` are assigned; `masses` passes through. -/
def stepOnce (num_cores : Nat) (dt0 : ℚ) (st : SimState) : SimState :=
  let forces := stepForces num_cores st
  let accelerations := List.zipWith (fun f m => vdiv f m) forces st.masses
  let velocities := List.zipWith (· + ·) st.velocities
    (accelerations.map fun a => vsmul a dt0)
  let positions := List.zipWith (· + ·) st.positions
    (velocities.map fun v => vsmul v dt0)
  { positions := positions, velocities := velocities, masses := st.masses }

/-- The loop `for step in range(num_steps)` of `main`. -/
def runSteps (num_cores : Nat) (dt0 : ℚ) : Nat → SimState → SimState
  | 0, st => st
  | n + 1, st => runSteps num_cores dt0 n (stepOnce num_cores dt0 st)

/-- Rendering of one coordinate by `write_data`'s `f"{px:.2f}"`, modelled as
the signed integer count of hundredths (rounding half up; only congruence of
the rendering is used below, never a specific rounding mode). -/
def fmt2 (q : ℚ) : ℤ := (q * 100 + 1 / 2).floor

/-- Embedding of `write_data(positions, output_file)`: the sequence of rendered
rows written after the header. -/
def write_data (positions : List Vec3) : List (ℤ × ℤ × ℤ) :=
  positions.map fun p => (fmt2 p.1, fmt2 p.2.1, fmt2 p.2.2)

/-- Proof-layer abbreviation (not from the source): the force computed for the
loop iteration visiting the pair `ij`. -/
def pairForce (positions : List Vec3) (masses : List ℚ) (ij : Nat × Nat) : Vec3 :=
  force_between_planets (positions.getD ij.1 0) (masses.getD ij.1 0)
    (positions.getD ij.2 0) (masses.getD ij.2 0)

/-- Proof-layer characterization (not from the source): the net amount the loop
iteration visiting `ij` adds to row `k` of a force array of length `n`. -/
def pairContrib (positions : List Vec3) (masses : List ℚ) (n k : Nat)
    (ij : Nat × Nat) : Vec3 :=
  (if k = ij.1 ∧ ij.1 < n then pairForce positions masses ij else 0)
    + (if k = ij.2 ∧ ij.2 < n then -pairForce positions masses ij else 0)

/-- Proof-layer characterization (not from the source): the total contribution
of outer-loop iteration `i` to row `k`. -/
def rowSum (positions : List Vec3) (masses : List ℚ) (n k i : Nat) : Vec3 :=
  (((List.range' (i + 1) (n - (i + 1))).map fun j => ((i, j) : Nat × Nat)).map
    (pairContrib positions masses n k)).sum

/-- Concrete one-body input state, used to instantiate theorems with
hypotheses at an explicit input. -/
def oneBodyState : SimState := ⟨[(0, 0, 0)], [(0, 0, 0)], [1]⟩

/-! ### Length and frame lemmas -/

theorem addAt_length (l : List Vec3) (i : Nat) (v : Vec3) :
    (addAt l i v).length = l.length := by
  induction l generalizing i with
  | nil => rfl
  | cons x xs ih =>
    cases i with
    | zero => rfl
    | succ n => simpa [addAt] using ih n

theorem applyPair_length (positions : List Vec3) (masses : List ℚ)
    (forces : List Vec3) (ij : Nat × Nat) :
    (applyPair positions masses forces ij).length = forces.length := by
  simp [applyPair, addAt_length]

theorem runPairs_cons (st : ForceState) (ij : Nat × Nat) (rest : List (Nat × Nat)) :
    runPairs st (ij :: rest)
      = runPairs { st with forces := applyPair st.positions st.masses st.forces ij } rest :=
  rfl

theorem runPairs_positions (ps : List (Nat × Nat)) :
    ∀ st : ForceState, (runPairs st ps).positions = st.positions := by
  induction ps with
  | nil => intro st; rfl
  | cons ij rest ih =>
    intro st
    rw [runPairs_cons]
    exact ih _

theorem runPairs_masses (ps : List (Nat × Nat)) :
    ∀ st : ForceState, (runPairs st ps).masses = st.masses := by
  induction ps with
  | nil => intro st; rfl
  | cons ij rest ih =>
    intro st
    rw [runPairs_cons]
    exact ih _

theorem runPairs_forces_length (ps : List (Nat × Nat)) :
    ∀ st : ForceState, (runPairs st ps).forces.length = st.forces.length := by
  induction ps with
  | nil => intro st; rfl
  | cons ij rest ih =>
    intro st
    rw [runPairs_cons, ih]
    exact applyPair_length _ _ _ _

theorem calculate_forces_range_length (start stop : Nat)
    (positions : List Vec3) (masses : List ℚ) :
    (calculate_forces_range start stop positions masses).length = positions.length := by
  unfold calculate_forces_range
  rw [runPairs_forces_length]
  simp

theorem calculate_forces_length (positions : List Vec3) (masses : List ℚ) :
    (calculate_forces positions masses).length = positions.length :=
  calculate_forces_range_length _ _ _ _

theorem foldl_zipWith_length (n : Nat) (ls : List (List Vec3))
    (h : ∀ l ∈ ls, l.length = n) :
    ∀ acc : List Vec3, acc.length = n →
      (ls.foldl (List.zipWith (· + ·)) acc).length = n := by
  induction ls with
  | nil => intro acc ha; simpa using ha
  | cons l rest ih =>
    intro acc ha
    rw [List.foldl_cons]
    refine ih (fun x hx => h x (List.mem_cons_of_mem _ hx)) _ ?_
    rw [List.length_zipWith, ha, h l (List.mem_cons_self _ _)]
    omega

theorem sumArrays_length (n : Nat) (ls : List (List Vec3))
    (h : ∀ l ∈ ls, l.length = n) : (sumArrays n ls).length = n :=
  foldl_zipWith_length n ls h _ (by simp)

theorem calculate_forces_parallel_length (positions : List Vec3) (masses : List ℚ)
    (num_cores : Nat) :
    (calculate_forces_parallel positions masses num_cores).length = positions.length := by
  unfold calculate_forces_parallel
  refine sumArrays_length _ _ ?_
  intro l hl
  simp only [List.mem_map] at hl
  obtain ⟨r, _, rfl⟩ := hl
  exact calculate_forces_range_length _ _ _ _

theorem stepForces_length (num_cores : Nat) (st : SimState) :
    (stepForces num_cores st).length = st.positions.length := by
  unfold stepForces
  split
  · exact calculate_forces_parallel_length _ _ _
  · exact calculate_forces_length _ _

/-! ### The partition built by calculate_forces_parallel -/

theorem parallelArgs_length (n C : Nat) : (parallelArgs n C).length = C := by
  simp [parallelArgs]

theorem parallelArgs_getD (n C k : Nat) (hk : k < C) :
    (parallelArgs n C).getD k (0, 0)
      = (k * (n / C), if k ≠ C - 1 then (k + 1) * (n / C) else n) := by
  rw [List.getD_eq_getElem _ _ (by rw [parallelArgs_length]; exact hk)]
  simp [parallelArgs]

/-! ### Claim theorems: concrete force values, partition shape, loop frame -/

unseal Rat.mul Rat.add Rat.sub Rat.inv in
/-- C5: for the two-body configuration with body 1 of mass 1 at (0,0,0) and
body 2 of mass 2 at (1,0,0), the computed force on body 1 is (2,0,0) and on
body 2 is (-2,0,0), with the gravitational constant G fixed at 1. -/
theorem C5_two_body_example :
    calculate_forces [((0 : ℚ), (0 : ℚ), (0 : ℚ)), (1, 0, 0)] [1, 2]
      = [((2 : ℚ), 0, 0), (-2, 0, 0)] ∧ G = 1 := by
  constructor
  · decide
  · rfl

unseal Rat.mul Rat.add Rat.sub Rat.inv in
/-- C2 (code observation): the program reports no error on degenerate input.
With two bodies at the same position the unguarded division by `distance` runs
(in IEEE arithmetic producing NaN, under the exact-field convention x / 0 = 0
producing the zero vector), and with a non-positive mass the force is simply
computed; in both cases `calculate_forces` returns an ordinary force array and
the run keeps going, so no DegenerateConfiguration failure exists in the code. -/
theorem C2_degenerate_input_returns_array :
    calculate_forces [((0 : ℚ), 0, 0), ((0 : ℚ), 0, 0)] [1, 1]
        = [((0 : ℚ), 0, 0), (0, 0, 0)] ∧
      calculate_forces [((0 : ℚ), 0, 0), ((1 : ℚ), 0, 0)] [0, 1]
        = [((0 : ℚ), 0, 0), (0, 0, 0)] := by
  constructor
  · decide
  · decide

/-- C6: with 1 ≤ C ≤ N, worker k < C-1 is assigned the contiguous range
[k·(N/C), (k+1)·(N/C)), the last worker gets [(C-1)·(N/C), N), the last range
is never smaller than the chunk size, and N = 10, C = 3 yields the ranges
[0,3), [3,6), [6,10). -/
theorem C6_partition_ranges (N C : Nat) (h1 : 1 ≤ C) (h2 : C ≤ N) :
    (∀ k, k < C - 1 →
      (parallelArgs N C).getD k (0, 0) = (k * (N / C), (k + 1) * (N / C))) ∧
    (parallelArgs N C).getD (C - 1) (0, 0) = ((C - 1) * (N / C), N) ∧
    N / C ≤ N - (C - 1) * (N / C) ∧
    parallelArgs 10 3 = [(0, 3), (3, 6), (6, 10)] := by
  refine ⟨?_, ?_, ?_, by decide⟩
  · intro k hk
    rw [parallelArgs_getD N C k (by omega)]
    have : k ≠ C - 1 := by omega
    simp [this]
  · rw [parallelArgs_getD N C (C - 1) (by omega)]
    simp
  · have hmul : N / C * C ≤ N := Nat.div_mul_le_self N C
    have hsplit : 1 * (N / C) + (C - 1) * (N / C) = C * (N / C) := by
      rw [← Nat.add_mul]
      congr 1
      omega
    have hcm : C * (N / C) = N / C * C := Nat.mul_comm _ _
    omega

/-- C6 witness: the hypotheses hold and the partition facts follow at the
concrete input N = 10, C = 3. -/
theorem C6_partition_ranges_witness :
    1 ≤ 3 ∧ 3 ≤ 10 ∧ parallelArgs 10 3 = [(0, 3), (3, 6), (6, 10)] :=
  ⟨by decide, by decide, (C6_partition_ranges 10 3 (by decide) (by decide)).2.2.2⟩

/-- C7: with num_steps = 0 the step loop body never runs: the positions handed
to the output writer are exactly the input positions, so the written rows (the
2-decimal renderings) are those of the input. -/
theorem C7_zero_steps_identity (num_cores : Nat) (st : SimState) :
    (runSteps num_cores dt 0 st).positions = st.positions ∧
    write_data (runSteps num_cores dt 0 st).positions = write_data st.positions :=
  ⟨rfl, rfl⟩

/-- C10: the step loop never writes to the masses array: after any number of
steps the masses are exactly those read from the input. -/
theorem C10_masses_never_mutated (num_cores : Nat) (dt0 : ℚ) (n : Nat)
    (st : SimState) : (runSteps num_cores dt0 n st).masses = st.masses := by
  induction n generalizing st with
  | zero => rfl
  | succ k ih =>
    have hstep : runSteps num_cores dt0 (k + 1) st
        = runSteps num_cores dt0 k (stepOnce num_cores dt0 st) := rfl
    rw [hstep, ih]
    rfl

/-! ### Row-level characterization of the accumulation loops -/

theorem getD_addAt (l : List Vec3) (i k : Nat) (v : Vec3) :
    (addAt l i v).getD k 0
      = l.getD k 0 + if k = i ∧ i < l.length then v else 0 := by
  induction l generalizing i k with
  | nil => simp [addAt]
  | cons x xs ih =>
    cases i with
    | zero =>
      cases k with
      | zero => simp [addAt]
      | succ k' => simp [addAt]
    | succ i' =>
      cases k with
      | zero => simp [addAt]
      | succ k' =>
        have hiff : (k' + 1 = i' + 1 ∧ i' + 1 < (x :: xs).length)
            ↔ (k' = i' ∧ i' < xs.length) := by
          simp only [List.length_cons]
          omega
        simp only [addAt, List.getD_cons_succ]
        rw [ih, if_congr hiff rfl rfl]

theorem getD_applyPair (positions : List Vec3) (masses : List ℚ)
    (forces : List Vec3) (ij : Nat × Nat) (k : Nat) :
    (applyPair positions masses forces ij).getD k 0
      = forces.getD k 0 + pairContrib positions masses forces.length k ij := by
  simp only [applyPair, pairContrib, pairForce]
  rw [getD_addAt, getD_addAt, addAt_length, add_assoc]

theorem getD_runPairs (ps : List (Nat × Nat)) :
    ∀ (st : ForceState) (k : Nat),
      (runPairs st ps).forces.getD k 0
        = st.forces.getD k 0
          + (ps.map (pairContrib st.positions st.masses st.forces.length k)).sum := by
  induction ps with
  | nil => intro st k; simp [runPairs]
  | cons ij rest ih =>
    intro st k
    rw [runPairs_cons, ih]
    show (applyPair st.positions st.masses st.forces ij).getD k 0
        + (rest.map (pairContrib st.positions st.masses
            (applyPair st.positions st.masses st.forces ij).length k)).sum = _
    rw [getD_applyPair, applyPair_length, List.map_cons, List.sum_cons, add_assoc]

theorem getD_replicate_zero (n k : Nat) :
    (List.replicate n (0 : Vec3)).getD k 0 = 0 := by
  by_cases h : k < n
  · rw [List.getD_eq_getElem _ _ (by simpa using h), List.getElem_replicate]
  · rw [List.getD_eq_default _ _ (by simpa using h)]

theorem getD_calculate_forces_range (start stop : Nat) (positions : List Vec3)
    (masses : List ℚ) (k : Nat) :
    (calculate_forces_range start stop positions masses).getD k 0
      = ((List.range' start (stop - start)).map
          (rowSum positions masses positions.length k)).sum := by
  unfold calculate_forces_range
  rw [getD_runPairs]
  show (List.replicate positions.length (0 : Vec3)).getD k 0
      + ((pairList start stop positions.length).map
          (pairContrib positions masses
            (List.replicate positions.length (0 : Vec3)).length k)).sum = _
  rw [getD_replicate_zero, List.length_replicate, zero_add]
  unfold pairList
  rw [List.flatMap_def, List.map_flatten, List.sum_flatten, List.map_map, List.map_map]
  rfl

/-! ### The elementwise reduction np.sum(results, axis=0) -/

theorem getD_zipWith_vadd (a b : List Vec3) (h : b.length = a.length) (k : Nat) :
    (List.zipWith (· + ·) a b).getD k 0 = a.getD k 0 + b.getD k 0 := by
  have hz : (List.zipWith (· + ·) a b).length = a.length := by
    rw [List.length_zipWith, h]
    omega
  by_cases hk : k < a.length
  · rw [List.getD_eq_getElem _ _ (by omega : k < (List.zipWith (· + ·) a b).length),
      List.getD_eq_getElem _ _ hk, List.getD_eq_getElem _ _ (by omega : k < b.length),
      List.getElem_zipWith]
  · rw [List.getD_eq_default _ _ (by omega), List.getD_eq_default _ _ (by omega),
      List.getD_eq_default _ _ (by omega)]
    simp

theorem getD_foldl_zipWith (ls : List (List Vec3)) (n : Nat)
    (h : ∀ l ∈ ls, l.length = n) (k : Nat) :
    ∀ acc : List Vec3, acc.length = n →
      (ls.foldl (List.zipWith (· + ·)) acc).getD k 0
        = acc.getD k 0 + (ls.map fun l => l.getD k 0).sum := by
  induction ls with
  | nil => intro acc _; simp
  | cons l rest ih =>
    intro acc ha
    have hl : l.length = n := h l (List.mem_cons_self _ _)
    have hzl : (List.zipWith (· + ·) acc l).length = n := by
      rw [List.length_zipWith, ha, hl]
      omega
    rw [List.foldl_cons, ih (fun x hx => h x (List.mem_cons_of_mem _ hx)) _ hzl,
      getD_zipWith_vadd _ _ (by omega) k, List.map_cons, List.sum_cons, add_assoc]

theorem getD_sumArrays (n : Nat) (ls : List (List Vec3))
    (h : ∀ l ∈ ls, l.length = n) (k : Nat) :
    (sumArrays n ls).getD k 0 = (ls.map fun l => l.getD k 0).sum := by
  unfold sumArrays
  rw [getD_foldl_zipWith ls n h k _ (List.length_replicate _ _), getD_replicate_zero,
    zero_add]

/-! ### The worker ranges tile the outer index interval -/

theorem uniform_ranges_flatten (h m : Nat) :
    ((List.range m).map fun i => List.range' (i * h) h).flatten
      = List.range' 0 (m * h) := by
  induction m with
  | zero => simp
  | succ m ih =>
    rw [List.range_succ, List.map_append, List.flatten_append, ih]
    simp only [List.map_cons, List.map_nil, List.flatten_cons, List.flatten_nil,
      List.append_nil]
    have happ := List.range'_append 0 (m * h) h 1
    simp only [Nat.one_mul, Nat.zero_add] at happ
    rw [happ, Nat.succ_mul, Nat.add_comm]

theorem parallelArgs_flatten (n C : Nat) (hC : 1 ≤ C) :
    ((parallelArgs n C).map fun r => List.range' r.1 (r.2 - r.1)).flatten
      = List.range' 0 n := by
  obtain ⟨C', rfl⟩ : ∃ C', C = C' + 1 := ⟨C - 1, by omega⟩
  have hbound : C' * (n / (C' + 1)) ≤ n := by
    have h1 : n / (C' + 1) * (C' + 1) ≤ n := Nat.div_mul_le_self n (C' + 1)
    have h2 : C' * (n / (C' + 1)) ≤ n / (C' + 1) * (C' + 1) := by
      rw [Nat.mul_comm]
      exact Nat.mul_le_mul_left _ (by omega)
    omega
  simp only [parallelArgs, List.range_succ, List.map_append, List.flatten_append]
  have hfirst : (((List.range C').map fun i =>
        ((i * (n / (C' + 1)),
          if i ≠ C' + 1 - 1 then (i + 1) * (n / (C' + 1)) else n) : Nat × Nat)).map
          fun r => List.range' r.1 (r.2 - r.1)).flatten
      = List.range' 0 (C' * (n / (C' + 1))) := by
    rw [List.map_map]
    have hcong : ∀ i ∈ List.range C',
        ((fun r : Nat × Nat => List.range' r.1 (r.2 - r.1)) ∘ fun i =>
          ((i * (n / (C' + 1)),
            if i ≠ C' + 1 - 1 then (i + 1) * (n / (C' + 1)) else n) : Nat × Nat)) i
          = List.range' (i * (n / (C' + 1))) (n / (C' + 1)) := by
      intro i hi
      have hne : i ≠ C' + 1 - 1 := by
        have := List.mem_range.mp hi
        omega
      simp only [Function.comp_apply, if_pos hne]
      congr 1
      rw [Nat.succ_mul]
      exact Nat.add_sub_cancel_left _ _
    rw [List.map_congr_left hcong, uniform_ranges_flatten]
  rw [hfirst]
  simp only [List.map_cons, List.map_nil, List.flatten_cons, List.flatten_nil,
    List.append_nil, ne_eq, Nat.add_sub_cancel, not_true_eq_false, if_false,
    ite_false]
  have happ := List.range'_append 0 (C' * (n / (C' + 1))) (n - C' * (n / (C' + 1))) 1
  simp only [Nat.one_mul, Nat.zero_add] at happ
  rw [happ]
  congr 1
  omega

/-! ### Parallel equals serial -/

theorem sum_over_blocks (f : Nat → Vec3) (bs : List (List Nat)) :
    (bs.map fun b => (b.map f).sum).sum = (bs.flatten.map f).sum := by
  rw [List.map_flatten, List.sum_flatten, List.map_map]
  rfl

theorem parallel_eq_serial (positions : List Vec3) (masses : List ℚ) (C : Nat)
    (hC : 1 ≤ C) :
    calculate_forces_parallel positions masses C = calculate_forces positions masses := by
  apply List.ext_getElem
  · rw [calculate_forces_parallel_length, calculate_forces_length]
  intro k h1 h2
  rw [← List.getD_eq_getElem _ (0 : Vec3) h1, ← List.getD_eq_getElem _ (0 : Vec3) h2]
  unfold calculate_forces_parallel
  rw [getD_sumArrays _ _ (by
    intro l hl
    simp only [List.mem_map] at hl
    obtain ⟨r, _, rfl⟩ := hl
    exact calculate_forces_range_length _ _ _ _) k, List.map_map]
  have hpt : ∀ r ∈ parallelArgs positions.length C,
      ((fun l : List Vec3 => l.getD k 0) ∘ fun r : Nat × Nat =>
        calculate_forces_range r.1 r.2 positions masses) r
        = ((fun b : List Nat =>
            (b.map (rowSum positions masses positions.length k)).sum) ∘ fun r : Nat × Nat =>
            List.range' r.1 (r.2 - r.1)) r := by
    intro r _
    exact getD_calculate_forces_range _ _ _ _ _
  rw [List.map_congr_left hpt, ← List.map_map, sum_over_blocks,
    parallelArgs_flatten _ _ hC]
  have hser := getD_calculate_forces_range 0 positions.length positions masses k
  rw [Nat.sub_zero] at hser
  rw [← hser]
  rfl

/-! ### Newton's third law: pair contributions cancel in the total -/

theorem sum_addAt (l : List Vec3) (i : Nat) (v : Vec3) :
    (addAt l i v).sum = l.sum + if i < l.length then v else 0 := by
  induction l generalizing i with
  | nil => simp [addAt]
  | cons x xs ih =>
    cases i with
    | zero =>
      simp only [addAt, List.sum_cons, List.length_cons, if_pos (Nat.succ_pos _)]
      rw [add_right_comm]
    | succ i' =>
      simp only [addAt, List.sum_cons, List.length_cons, ih, Nat.succ_lt_succ_iff]
      rw [add_assoc]

theorem sum_applyPair (positions : List Vec3) (masses : List ℚ)
    (forces : List Vec3) (ij : Nat × Nat)
    (h1 : ij.1 < forces.length) (h2 : ij.2 < forces.length) :
    (applyPair positions masses forces ij).sum = forces.sum := by
  simp only [applyPair]
  rw [sum_addAt, sum_addAt, addAt_length, if_pos h1, if_pos h2, add_assoc]
  simp

theorem mem_pairList_bounds (start stop n : Nat) (hstop : stop ≤ n)
    (ij : Nat × Nat) (hij : ij ∈ pairList start stop n) :
    ij.1 < n ∧ ij.2 < n := by
  obtain ⟨i, j⟩ := ij
  simp only [pairList, List.mem_flatMap, List.mem_map, List.mem_range'_1,
    Prod.mk.injEq] at hij
  obtain ⟨a, ⟨ha1, ha2⟩, b, ⟨hb1, hb2⟩, hea, heb⟩ := hij
  constructor
  · omega
  · omega

theorem sum_runPairs (ps : List (Nat × Nat)) :
    ∀ st : ForceState,
      (∀ ij ∈ ps, ij.1 < st.forces.length ∧ ij.2 < st.forces.length) →
      (runPairs st ps).forces.sum = st.forces.sum := by
  induction ps with
  | nil => intro st _; rfl
  | cons ij rest ih =>
    intro st h
    rw [runPairs_cons]
    rw [ih _ (by
      intro x hx
      show x.1 < (applyPair st.positions st.masses st.forces ij).length ∧
        x.2 < (applyPair st.positions st.masses st.forces ij).length
      rw [applyPair_length]
      exact h x (List.mem_cons_of_mem _ hx))]
    exact sum_applyPair _ _ _ _ (h ij (List.mem_cons_self _ _)).1
      (h ij (List.mem_cons_self _ _)).2

/-! ### Pointwise access to the integrator's vectorized updates -/

theorem getD_map_vsmul (a : List Vec3) (c : ℚ) (k : Nat) (hk : k < a.length) :
    (a.map fun v => vsmul v c).getD k 0 = vsmul (a.getD k 0) c := by
  rw [List.getD_eq_getElem _ _ (by simpa using hk), List.getD_eq_getElem _ _ hk,
    List.getElem_map]

theorem getD_zipWith_vdiv (f : List Vec3) (m : List ℚ) (k : Nat)
    (hk : k < f.length) (hm : m.length = f.length) :
    (List.zipWith (fun x y => vdiv x y) f m).getD k 0
      = vdiv (f.getD k 0) (m.getD k 0) := by
  have hz : (List.zipWith (fun x y => vdiv x y) f m).length = f.length := by
    rw [List.length_zipWith, hm]
    omega
  rw [List.getD_eq_getElem _ _ (by omega : k < (List.zipWith (fun x y => vdiv x y) f m).length),
    List.getD_eq_getElem _ _ hk, List.getD_eq_getElem _ _ (by omega : k < m.length),
    List.getElem_zipWith]

/-! ### Claim theorems: algebraic and refinement properties -/

/-- C4: for every body set with pairwise distinct positions (no degenerate
distances), the componentwise sum over all bodies of the per-body forces
returned by calculate_forces is the zero 3-vector, exactly, in exact
arithmetic: each unordered pair contributes +force to row i and -force to
row j exactly once. -/
theorem C4_forces_sum_to_zero (positions : List Vec3) (masses : List ℚ)
    (hdist : positions.Pairwise (· ≠ ·)) :
    (calculate_forces positions masses).sum = 0 := by
  have hb : ∀ ij ∈ pairList 0 positions.length positions.length,
      ij.1 < (List.replicate positions.length (0 : Vec3)).length ∧
      ij.2 < (List.replicate positions.length (0 : Vec3)).length := by
    intro ij hij
    have hbnd := mem_pairList_bounds 0 positions.length positions.length le_rfl ij hij
    simpa using hbnd
  unfold calculate_forces calculate_forces_range
  rw [sum_runPairs _ _ hb]
  simp

/-- C4 witness: the pairwise-distinctness hypothesis holds for the two-body
configuration and its total force is zero. -/
theorem C4_forces_sum_to_zero_witness :
    ([((0 : ℚ), 0, 0), ((1 : ℚ), 0, 0)] : List Vec3).Pairwise (· ≠ ·) ∧
    (calculate_forces [((0 : ℚ), 0, 0), ((1 : ℚ), 0, 0)] [1, 2]).sum = 0 :=
  ⟨by decide, C4_forces_sum_to_zero _ [1, 2] (by decide)⟩

/-- C8: the force computation mutates nothing but its own accumulator: running
the loops of calculate_forces_range over the explicit state leaves the
positions and masses arrays exactly as passed in (velocities are not even in
scope of the function), and the returned array is the state's fresh
accumulator, zero-initialized independently of any caller-owned array. -/
theorem C8_force_computation_is_pure (start stop : Nat) (positions : List Vec3)
    (masses : List ℚ) :
    (runPairs ⟨List.replicate positions.length 0, positions, masses⟩
        (pairList start stop positions.length)).positions = positions ∧
    (runPairs ⟨List.replicate positions.length 0, positions, masses⟩
        (pairList start stop positions.length)).masses = masses ∧
    calculate_forces_range start stop positions masses
      = (runPairs ⟨List.replicate positions.length 0, positions, masses⟩
          (pairList start stop positions.length)).forces :=
  ⟨runPairs_positions _ _, runPairs_masses _ _, rfl⟩

/-- C1: for N ≥ 1 bodies with positive masses and pairwise distinct positions
and any worker count 1 ≤ C ≤ N, calculate_forces_parallel returns exactly the
same force array as calculate_forces (in the exact-arithmetic embedding the
equality is on the nose). -/
theorem C1_parallel_equals_serial (positions : List Vec3) (masses : List ℚ)
    (C : Nat) (hN : 1 ≤ positions.length) (hlen : masses.length = positions.length)
    (hmass : ∀ m ∈ masses, 0 < m) (hpos : positions.Pairwise (· ≠ ·))
    (hC1 : 1 ≤ C) (hC2 : C ≤ positions.length) :
    calculate_forces_parallel positions masses C = calculate_forces positions masses :=
  parallel_eq_serial positions masses C hC1

/-- C1 witness: all hypotheses hold for the two-body configuration with two
workers, and the parallel result equals the serial result there. -/
theorem C1_parallel_equals_serial_witness :
    (1 ≤ ([((0 : ℚ), 0, 0), ((1 : ℚ), 0, 0)] : List Vec3).length ∧
      (∀ m ∈ ([1, 2] : List ℚ), 0 < m) ∧ (1 : Nat) ≤ 2) ∧
    calculate_forces_parallel [((0 : ℚ), 0, 0), ((1 : ℚ), 0, 0)] [1, 2] 2
      = calculate_forces [((0 : ℚ), 0, 0), ((1 : ℚ), 0, 0)] [1, 2] :=
  ⟨⟨by decide, by decide, by decide⟩,
    C1_parallel_equals_serial [((0 : ℚ), 0, 0), ((1 : ℚ), 0, 0)] [1, 2] 2
      (by decide) (by decide) (by decide) (by decide) (by decide) (by decide)⟩

/-- C9: for every worker count C ≥ 1 — including C greater than the number of
bodies N — the C ranges tile [0, N): the concatenation of the per-worker outer
index ranges is exactly the list 0, 1, ..., N-1 (hence the ranges are pairwise
disjoint, cover everything, and every pair (i, j) with i < j is handled by
exactly one worker); when N < C the chunk size N / C is 0; and the elementwise
sum of the worker arrays equals the serial result exactly. -/
theorem C9_ranges_tile_and_parallel_exact (positions : List Vec3)
    (masses : List ℚ) (C : Nat) (hC : 1 ≤ C) :
    ((parallelArgs positions.length C).map fun r => List.range' r.1 (r.2 - r.1)).flatten
        = List.range' 0 positions.length ∧
    (positions.length < C → positions.length / C = 0) ∧
    calculate_forces_parallel positions masses C = calculate_forces positions masses :=
  ⟨parallelArgs_flatten _ _ hC, fun h => Nat.div_eq_of_lt h,
    parallel_eq_serial _ _ _ hC⟩

/-- C9 witness: with five workers for two bodies the hypothesis holds, the
first four ranges are empty, the last covers [0, 2), and parallel equals
serial. -/
theorem C9_ranges_tile_and_parallel_exact_witness :
    (1 : Nat) ≤ 5 ∧
    (((parallelArgs 2 5).map fun r => List.range' r.1 (r.2 - r.1)).flatten
        = List.range' 0 2 ∧
      calculate_forces_parallel [((0 : ℚ), 0, 0), ((1 : ℚ), 0, 0)] [1, 2] 5
        = calculate_forces [((0 : ℚ), 0, 0), ((1 : ℚ), 0, 0)] [1, 2]) :=
  ⟨by decide,
    (C9_ranges_tile_and_parallel_exact [((0 : ℚ), 0, 0), ((1 : ℚ), 0, 0)] [1, 2] 5
      (by decide)).1,
    (C9_ranges_tile_and_parallel_exact [((0 : ℚ), 0, 0), ((1 : ℚ), 0, 0)] [1, 2] 5
      (by decide)).2.2⟩

/-- C3: one step of main's loop updates each body i with nonzero mass by
acceleration = forces i / masses i, velocity += acceleration * dt, and
position += velocity * dt using the already-updated velocity, with dt the
fixed constant 0.2 = 1/5. -/
theorem C3_semi_implicit_euler_step (num_cores : Nat) (st : SimState) (i : Nat)
    (hv : st.velocities.length = st.positions.length)
    (hm : st.masses.length = st.positions.length)
    (hi : i < st.positions.length)
    (hmass : st.masses.getD i 0 ≠ 0) :
    (stepOnce num_cores dt st).velocities.getD i 0
        = st.velocities.getD i 0
          + vsmul (vdiv ((stepForces num_cores st).getD i 0) (st.masses.getD i 0)) dt ∧
    (stepOnce num_cores dt st).positions.getD i 0
        = st.positions.getD i 0
          + vsmul ((stepOnce num_cores dt st).velocities.getD i 0) dt ∧
    dt = 1 / 5 := by
  have hF : (stepForces num_cores st).length = st.positions.length :=
    stepForces_length _ _
  have hacc : (List.zipWith (fun f m => vdiv f m) (stepForces num_cores st)
      st.masses).length = st.positions.length := by
    rw [List.length_zipWith, hF, hm]
    omega
  have e1 : (stepOnce num_cores dt st).velocities
      = List.zipWith (· + ·) st.velocities
          ((List.zipWith (fun f m => vdiv f m) (stepForces num_cores st)
            st.masses).map fun a => vsmul a dt) := rfl
  have hvel : (stepOnce num_cores dt st).velocities.length = st.positions.length := by
    rw [e1, List.length_zipWith, List.length_map, hacc, hv]
    omega
  have e2 : (stepOnce num_cores dt st).positions
      = List.zipWith (· + ·) st.positions
          ((stepOnce num_cores dt st).velocities.map fun v => vsmul v dt) := rfl
  refine ⟨?_, ?_, rfl⟩
  · rw [e1, getD_zipWith_vadd _ _ (by rw [List.length_map, hacc]; exact hv.symm) i,
      getD_map_vsmul _ _ _ (by rw [hacc]; exact hi),
      getD_zipWith_vdiv _ _ _ (by rw [hF]; exact hi) (by rw [hm, hF])]
  · rw [e2, getD_zipWith_vadd _ _ (by rw [List.length_map]; exact hvel) i,
      getD_map_vsmul _ _ _ (by rw [hvel]; exact hi)]

/-- C3 witness: for the concrete one-body state the hypotheses hold and the
update equations follow. -/
theorem C3_semi_implicit_euler_step_witness :
    oneBodyState.masses.getD 0 0 ≠ 0 ∧
    ((stepOnce 1 dt oneBodyState).velocities.getD 0 0
        = oneBodyState.velocities.getD 0 0
          + vsmul (vdiv ((stepForces 1 oneBodyState).getD 0 0)
              (oneBodyState.masses.getD 0 0)) dt ∧
      (stepOnce 1 dt oneBodyState).positions.getD 0 0
        = oneBodyState.positions.getD 0 0
          + vsmul ((stepOnce 1 dt oneBodyState).velocities.getD 0 0) dt ∧
      dt = 1 / 5) :=
  ⟨by decide,
    C3_semi_implicit_euler_step 1 oneBodyState 0 (by decide) (by decide)
      (by decide) (by decide)⟩
